import Mathlib

set_option maxRecDepth 100000

/-!
Verification development for the RAG context engine of this repository
(`backend/src/services/databaseService.ts`, class `RagService`).

The TypeScript code is shallowly embedded: pure helpers become Lean
functions, the effectful calls (file system, ChromaDB, OpenAI embeddings)
become explicit oracle parameters, JS numbers used for similarity scores
become rationals (ℚ), and thrown exceptions become `Option`/`Except`
outcomes.  Every definition is translated from the source file, not from
the specification text.
-/

namespace Rag

/-- Chunk/document metadata as produced by `loadDocuments` and
`smartChunkDocument`.  In the source this is a plain JS object; the fields
below are exactly the keys the RAG engine ever writes.  A missing/empty JS
value is modelled as `""` for the always-written string fields and as
`none` for the chunk-only fields. -/
structure Metadata where
  source : String
  dataSourceId : String
  type : String
  parentId : Option String := none
  chunkType : Option String := none
  startRow : Option Nat := none
  endRow : Option Nat := none
deriving DecidableEq, Repr

/-- `Document` of databaseService.ts: id, content, metadata. -/
structure Document where
  id : String
  content : String
  metadata : Metadata
deriving DecidableEq, Repr

/-- The embedding record built by `generateEmbeddings`
(`{ id, embedding, metadata, content }`). -/
structure EmbRecord where
  id : String
  embedding : List ℚ
  metadata : Metadata
  content : String
deriving DecidableEq, Repr

/-- JS `hay.includes(needle)` (substring containment). -/
def containsSub (hay needle : String) : Bool :=
  hay.data.tails.any (fun t => needle.data.isPrefixOf t)

/-- First `n` characters of a string:
JS `s.substring(0, Math.min(n, s.length))`. -/
def strTake (s : String) (n : Nat) : String :=
  String.mk (s.data.take n)

/-- JS `s.toLowerCase()` (character-wise lowering; the corpora handled by
the service are ASCII, where the two agree).  Defined on the character
list so that it evaluates inside the kernel. -/
def toLowerStr (s : String) : String :=
  String.mk (s.data.map Char.toLower)

/-!
## Levenshtein distance (`RagService.levenshteinDistance`, lines 890-916)

The source builds the classical DP matrix
`matrix[i][j]` for `i ≤ str2.length`, `j ≤ str1.length`:
row 0 is `0..str1.length`, `matrix[i][0] = i`, and

  matrix[i][j] = if str2[i-1] == str1[j-1] then matrix[i-1][j-1]
                 else min (matrix[i-1][j-1]+1)   -- substitution
                          (matrix[i][j-1]+1)     -- insertion
                          (matrix[i-1][j]+1)     -- deletion

returning `matrix[str2.length][str1.length]`.  We embed it row by row:
`buildRow` produces the entries `j = 1..n` of the next row from the
previous row, carrying the diagonal, the entry just computed, and the rest
of the previous row. -/

def buildRow (c2 : Char) : List Char → Nat → Nat → List Nat → List Nat
  | [], _, _, _ => []
  | _ :: _, _, _, [] => []
  | c1 :: s1, diag, left, up :: prest =>
      let cur := if c2 == c1 then diag else min (min (diag + 1) (left + 1)) (up + 1)
      cur :: buildRow c2 s1 up cur prest

/-- Iterate `buildRow` over the characters of `str2`; `i` is the index of
the row being built (`matrix[i][0] = i`). -/
def levRows (s1 : List Char) : List Char → List Nat → Nat → List Nat
  | [], prev, _ => prev
  | c2 :: s2, prev, i =>
      match prev with
      | [] => []
      | p0 :: prest => levRows s1 s2 (i :: buildRow c2 s1 p0 i prest) (i + 1)

/-- `RagService.levenshteinDistance(str1, str2)`: final cell
`matrix[str2.length][str1.length]` of the DP. -/
def levenshteinDistance (str1 str2 : String) : Nat :=
  let s1 := str1.data
  let s2 := str2.data
  let row0 := List.range (s1.length + 1)
  (levRows s1 s2 row0 1).getD s1.length 0

/-- Reference recurrence for unit-cost edit distance, consuming characters
from the front.  The DP above computes `levRec` on the reversed strings
(prefixes of the inputs are suffixes of their reversals); the `min`
grouping mirrors `buildRow`: substitution, insertion, deletion. -/
def levRec : List Char → List Char → Nat
  | [], ys => ys.length
  | x :: xs, [] => (x :: xs).length
  | x :: xs, y :: ys =>
      if x == y then levRec xs ys
      else min (min (levRec xs ys + 1) (levRec xs (y :: ys) + 1)) (levRec (x :: xs) ys + 1)
termination_by xs ys => xs.length + ys.length
decreasing_by all_goals simp_arith

/-- Entries `j = 1..t.length` of the DP row for the already-consumed
reversed `str2`-prefix `q`: entry `k` is the distance between the reversal
of the first `k` characters of `t` (prepended to the reversed consumed
part `r` of `str1`) and `q`. -/
def rowEntries (q : List Char) : List Char → List Char → List Nat
  | _, [] => []
  | r, c :: t => levRec (c :: r) q :: rowEntries q (c :: r) t

/-- Full DP row for the reversed consumed `str2`-prefix `q`. -/
def rowFor (s1 q : List Char) : List Nat :=
  levRec [] q :: rowEntries q [] s1

/-!
## Fuzzy matcher (`RagService.findPotentialNameMatches`, lines 919-1014)

Scores are JS numbers in the source; we model them as rationals.  One JS
artefact is modelled explicitly: when both strings are empty the source
divides 0 by 0 producing `NaN`, and every `NaN` comparison is false, so an
acceptance test `score > threshold` fails; we guard each acceptance test
with `0 < maxLen` to reproduce exactly that behaviour.
-/

/-- Result entry `{doc, score, index}` of `findPotentialNameMatches`. -/
structure FuzzyMatch where
  doc : String
  score : ℚ
  index : Nat
deriving DecidableEq, Repr

/-- The static name-confusion table `nameReplacements` (lines 924-970),
in source order, one entry per key with its variant list. -/
def nameReplacements : List (String × List String) :=
  [("chen", ["chin", "chan", "cheng", "chine"]),
   ("zhang", ["chang", "zhang", "zhan"]),
   ("wang", ["wang", "wong", "wahng"]),
   ("li", ["lee", "li", "ly"]),
   ("liu", ["liu", "lew", "loo"]),
   ("yang", ["yang", "yong", "yaang"]),
   ("huang", ["huang", "hwang", "wahng"]),
   ("zhou", ["zhou", "joe", "jou"]),
   ("wu", ["wu", "woo", "woo"]),
   ("xu", ["xu", "shu", "su"]),
   ("sun", ["sun", "soon", "son"]),
   ("ma", ["ma", "mah", "mar"]),
   ("hu", ["hu", "who", "hoo"]),
   ("guo", ["guo", "goo", "gwo"]),
   ("lin", ["lin", "lynn", "leen"]),
   ("he", ["he", "her", "hee"]),
   ("gao", ["gao", "gow", "gau"]),
   ("zheng", ["zheng", "jung", "jung"]),
   ("shi", ["shi", "she", "shee"]),
   ("perez", ["perez", "peres", "perez"]),
   ("garcia", ["garcia", "garsha", "garcia"]),
   ("rodriguez", ["rodriguez", "rodriques", "rodriges"]),
   ("gonzalez", ["gonzalez", "gonzales", "gonzalez"]),
   ("lopez", ["lopez", "lopes", "lopez"]),
   ("martinez", ["martinez", "martines", "martinez"]),
   ("sanchez", ["sanchez", "sanches", "sanchez"]),
   ("ramirez", ["ramirez", "ramires", "ramirez"]),
   ("torres", ["torres", "tores", "torres"]),
   ("flores", ["flores", "floress", "flores"]),
   ("rivera", ["rivera", "riviera", "rivera"]),
   ("gomez", ["gomez", "gomes", "gomez"]),
   ("diaz", ["diaz", "dias", "diaz"]),
   ("morales", ["morales", "moralez", "morales"]),
   ("ortiz", ["ortiz", "ortis", "ortiz"]),
   ("gutierrez", ["gutierrez", "gutieres", "gutierrez"]),
   ("chavez", ["chavez", "chaves", "chavez"]),
   ("ramos", ["ramos", "ramoss", "ramos"]),
   ("hernandez", ["hernandez", "ernandez", "hernandez"]),
   ("jimenez", ["jimenez", "jimines", "jimenez"]),
   ("mendoza", ["mendoza", "mendosa", "mendoza"]),
   ("ruiz", ["ruiz", "ruez", "ruiz"]),
   ("aguilar", ["aguilar", "aguillar", "aguilar"]),
   ("medina", ["medina", "medinah", "medina"]),
   ("castillo", ["castillo", "castiloo", "castillo"]),
   ("santiago", ["santiago", "santiango", "santiago"])]

/-- Normalized similarity `1 - (editDistance / maxLength)`, written as the
single fraction `(maxLen - dist) / maxLen` so that it evaluates inside the
kernel (`Rat` subtraction is irreducible); `normScore_eq` below proves it
equal to the source formula whenever `maxLen` is positive (when it is zero
the JS source produces `NaN` and every acceptance test on it fails, which
the callers reproduce with an explicit `0 < maxLen` guard). -/
def normScore (dist maxLen : Nat) : ℚ := mkRat ((maxLen : Int) - (dist : Int)) maxLen

/-- The name-confusion-table pass over one candidate document: the source's
nested loops updating `bestScore` whenever a variant contained in the query
and a variant contained in the document score above 0.6 and above the
current best. -/
def nameTableFold (ql dl : String) (best0 : ℚ) : ℚ :=
  nameReplacements.foldl (fun b entry =>
    let allVariants := entry.1 :: entry.2
    allVariants.foldl (fun b variant =>
      if containsSub ql variant then
        allVariants.foldl (fun b correctVariant =>
          if containsSub dl correctVariant then
            let dist := levenshteinDistance variant correctVariant
            let maxLen := max variant.length correctVariant.length
            let score := normScore dist maxLen
            if 0 < maxLen ∧ mkRat 3 5 < score ∧ b < score then score else b
          else b) b
      else b) b) best0

/-- Best score of one candidate document against the lowercased query:
the table pass followed by the whole-query fuzzy comparison against the
first 100 characters of the document (accepted above 0.7). -/
def docBestScore (ql dl : String) : ℚ :=
  let best := nameTableFold ql dl 0
  let dl100 := strTake dl 100
  let dist := levenshteinDistance ql dl100
  let maxLen := max ql.length dl100.length
  let fuzzyScore := normScore dist maxLen
  if 0 < maxLen ∧ mkRat 7 10 < fuzzyScore then max best fuzzyScore else best

/-- `RagService.findPotentialNameMatches(query, documents)`: collect every
candidate whose best score exceeds 0.5 and sort descending by score
(JS `sort((a, b) => b.score - a.score)`, a stable descending sort). -/
def findPotentialNameMatches (query : String) (documents : List String) :
    List FuzzyMatch :=
  let ql := toLowerStr query
  let found := documents.enum.filterMap (fun p =>
    let best := docBestScore ql (toLowerStr p.2)
    if mkRat 1 2 < best then some ⟨p.2, best, p.1⟩ else none)
  found.mergeSort (fun a b => decide (b.score ≤ a.score))

/-!
## Retrieval orchestrator (`RagService.retrieveContext`, lines 1016-1104)

The effectful collaborators are modelled as oracles: `ChromaEnv` answers
`getCollection` (with `none` for a thrown `CollectionNotFound`) and the
query-time embedding call (with `none` for a thrown provider error).  A
`Collection` carries the data the two ChromaDB reads can return: `ranked`
is the best-first result list of the vector `query` (so `query` with
`nResults` returns its first `nResults` entries) and `stored` is the raw
record list of `get` (so `get` with `limit` returns its first `limit`
entries).  The enclosing JS `try/catch` returns `[]` on any throw, which
the `none` branches reproduce. -/

/-- In-memory vector-store record: the fields of `VectorStore` that
`retrieveContext` reads. -/
structure VectorStoreRec where
  name : String
  status : String
deriving DecidableEq, Repr

/-- One entry of a ChromaDB `query` answer: document (null allowed),
metadata (null allowed), distance (null allowed). -/
structure SemRecord where
  doc : Option String
  metadata : Option Metadata
  distance : Option ℚ
deriving DecidableEq, Repr

/-- One entry of a ChromaDB `get` answer. -/
structure StoredRecord where
  doc : Option String
  metadata : Option Metadata
deriving DecidableEq, Repr

/-- A ChromaDB collection as observable through the two read calls. -/
structure Collection where
  count : Nat
  ranked : List SemRecord
  stored : List StoredRecord
deriving DecidableEq, Repr

/-- Oracles for the external calls made by `retrieveContext`. -/
structure ChromaEnv where
  getCollection : String → Option Collection
  embedQuery : String → Option (List ℚ)

/-- Output shape `{content, source, dataSourceId}` of `retrieveContext`. -/
structure ContextChunk where
  content : String
  source : String
  dataSourceId : String
deriving DecidableEq, Repr

/-- `String(metadata.source || 'Unknown source')`: the empty string is
falsy in JS. -/
def srcLabel (m : Metadata) : String :=
  if m.source = "" then "Unknown source" else m.source

/-- `String(metadata.dataSourceId || vectorStoreId)`. -/
def dsIdLabel (m : Metadata) (vectorStoreId : String) : String :=
  if m.dataSourceId = "" then vectorStoreId else m.dataSourceId

/-- The distance filter `distance === null || distance < 0.8`
(line 1054). -/
def keepDistance : Option ℚ → Bool
  | none => true
  | some d => decide (d < mkRat 4 5)

/-- The semantic-result loop (lines 1048-1062): keep a result when its
document is a string, its metadata is present, and `keepDistance` accepts
its distance. -/
def semanticContexts (vectorStoreId : String) (results : List SemRecord) :
    List ContextChunk :=
  results.filterMap fun r =>
    match r.doc, r.metadata with
    | some d, some m =>
        if keepDistance r.distance then
          some ⟨d, srcLabel m, dsIdLabel m vectorStoreId⟩
        else none
    | _, _ => none

/-- The fuzzy fallback (lines 1064-1092): filter the scanned records to
their string documents, run the matcher, and for the top 3 matches emit a
context chunk when the metadata at the match index is present.  (The
index is looked up in the unfiltered metadata array, exactly as in the
source.) -/
def fuzzyContexts (vectorStoreId query : String) (pool : List StoredRecord) :
    List ContextChunk :=
  let docStrings := pool.filterMap (fun r => r.doc)
  let fuzzyMatches := findPotentialNameMatches query docStrings
  (fuzzyMatches.take 3).filterMap fun m =>
    match (pool.map (fun r => r.metadata)).getD m.index none with
    | some md => some ⟨m.doc, srcLabel md, dsIdLabel md vectorStoreId⟩
    | none => none

/-- `RagService.retrieveContext(query, vectorStoreId)`: resolve the store
(must exist and be `ready`), get the collection, embed the query, run the
semantic search over the top 5 ranked results, and fall back to fuzzy
matching over up to 100 scanned records only when no semantic result
survives.  Any oracle failure yields `[]` via the enclosing catch. -/
def retrieveContext (env : ChromaEnv) (stores : List (String × VectorStoreRec))
    (query vectorStoreId : String) : List ContextChunk :=
  match List.lookup vectorStoreId stores with
  | none => []
  | some vs =>
      if vs.status = "ready" then
        match env.getCollection ("rag_" ++ vectorStoreId) with
        | none => []
        | some coll =>
            match env.embedQuery query with
            | none => []
            | some _ =>
                let contexts := semanticContexts vectorStoreId (coll.ranked.take 5)
                if contexts.isEmpty then
                  fuzzyContexts vectorStoreId query (coll.stored.take 100)
                else contexts
      else []

/-!
## Embedding generator (`RagService.generateEmbeddings`, lines 756-804)

The external provider call is modelled by an oracle
`p : Nat → Nat → Bool` giving the success of batch `b` at attempt `k`
(the source retries a batch while `retryCount < maxRetries = 3`), and an
oracle `vecOf` for the numeric vectors it returns on success (their
values never influence the control flow).  The backoff sleeps
(`Math.pow(2, retryCount) * 1000` milliseconds, executed only when
`retryCount < maxRetries` holds after the increment) are collected in a
list so the retry schedule is observable. -/

/-- The inner retry loop for one batch: `r` attempts left, `k` the
current `retryCount`.  Returns (success, backoff sleeps in ms). -/
def retryGo (pb : Nat → Bool) : Nat → Nat → Bool × List Nat
  | 0, _ => (false, [])
  | r + 1, k =>
      if pb k then (true, [])
      else
        let sleeps := if k + 1 < 3 then [2 ^ (k + 1) * 1000] else []
        let rest := retryGo pb r (k + 1)
        (rest.1, sleeps ++ rest.2)

/-- The record pushed per successfully embedded chunk (lines 777-784). -/
def mkEmbRecord (vecOf : String → List ℚ) (c : Document) : EmbRecord :=
  ⟨c.id, vecOf c.content, c.metadata, c.content⟩

/-- The batch loop (`for (let i = 0; i < chunks.length; i += batchSize)`
with `batchSize = 50`), `b` being the index of the current batch. -/
def genGo (p : Nat → Nat → Bool) (vecOf : String → List ℚ) :
    List Document → Nat → List EmbRecord × List Nat
  | [], _ => ([], [])
  | x :: xs, b =>
      let batch := (x :: xs).take 50
      let attempt := retryGo (p b) 3 0
      let recs := if attempt.1 then batch.map (mkEmbRecord vecOf) else []
      let rest := genGo p vecOf ((x :: xs).drop 50) (b + 1)
      (recs ++ rest.1, attempt.2 ++ rest.2)
termination_by chunks => chunks.length
decreasing_by simp [List.length_drop]; omega

/-- `RagService.generateEmbeddings(chunks)` (with the early return for an
empty chunk list), returning the successful records and the observed
backoff sleeps. -/
def generateEmbeddings (p : Nat → Nat → Bool) (vecOf : String → List ℚ)
    (chunks : List Document) : List EmbRecord × List Nat :=
  if chunks.length = 0 then ([], []) else genGo p vecOf chunks 0

/-- First attempt index `k < 3` at which the provider succeeds for one
batch, if any. -/
def firstSuccess (pb : Nat → Bool) : Option Nat := (List.range 3).find? pb

/-- Backoff sleeps of one batch as a function of its first successful
attempt: the failed attempt `k` sleeps `2^(k+1) * 1000` ms when another
attempt remains; a batch that never succeeds sleeps 2000 then 4000 ms. -/
def sleepsFor : Option Nat → List Nat
  | some k => (List.range k).map (fun j => 2 ^ (j + 1) * 1000)
  | none => [2000, 4000]

/-- Number of batches of size 50 covering `len` chunks. -/
def numBatches (len : Nat) : Nat := (len + 49) / 50

/-- Batch `b`: chunks `50*b` to `50*b + 49`. -/
def batchOf (chunks : List Document) (b : Nat) : List Document :=
  (chunks.drop (50 * b)).take 50

/-- Sample chunk used by the concrete scenarios. -/
def chunkX : Document :=
  ⟨"c0", "x", ⟨"docs/a.txt", "ds1", "file", none, none, none, none⟩⟩

/-!
## Lifecycle tail of `autoProcessDataSource` (lines 404-435)

Given the chunker's output, `autoProcessDataSource` generates embeddings,
stores them (we expose the storage call's success as the `storeOk`
oracle; on success the collection receives exactly the generated records,
so their number is recorded as `storedVectors`), and then sets
`status = 'ready'` and `documentCount = chunks.length`; if storing threw,
the catch block sets `status = 'error'` and leaves `documentCount`
untouched (`none` here). -/

/-- Status and counts recorded at the end of one processing run. -/
structure ProcessOutcome where
  status : String
  documentCount : Option Nat
  storedVectors : Nat
deriving DecidableEq, Repr

/-- The post-chunking tail of `RagService.autoProcessDataSource`. -/
def autoProcessAfterChunks (p : Nat → Nat → Bool) (v : String → List ℚ)
    (chunks : List Document) (storeOk : Bool) : ProcessOutcome :=
  let embeddings := (generateEmbeddings p v chunks).1
  if storeOk then ⟨"ready", some chunks.length, embeddings.length⟩
  else ⟨"error", none, 0⟩

/-- Provider that permanently fails on batches 1 and 3 and succeeds at
the first attempt elsewhere. -/
def pFail13 : Nat → Nat → Bool := fun b _ => !(b == 1 || b == 3)

/-!
## Chunker (`RagService.smartChunkDocument`, lines 689-754) and document
loader (`RagService.loadDocuments` / `loadFile`, lines 534-610)

The `RecursiveCharacterTextSplitter` is external library code, so the two
configured splitters (chunk size 800/overlap 100 for `.json`, 1000/200
otherwise) are oracles `split800` / `split1000`; `uuidv4()` becomes an id
generator `gen` threaded with a counter; the file system is an oracle. -/

/-- JS `str.split(sep)` for a one-character separator (the source splits
on a newline). -/
def splitChar (sep : Char) (cs : List Char) : List String :=
  (cs.foldr (fun c acc =>
    match acc with
    | [] => [[c]]
    | g :: gs => if c = sep then [] :: g :: gs else (c :: g) :: gs) [[]]).map String.mk

/-- Node `path.extname(p).toLowerCase()`: the part of the last path
segment from its final dot, empty for dotless names and for leading-dot
names such as `.bashrc`. -/
def extnameLower (p : String) : String :=
  let base := (splitChar '/' p.data).getLastD ""
  let parts := splitChar '.' base.data
  match parts with
  | [] => ""
  | [_] => ""
  | ["", _] => ""
  | _ => toLowerStr ("." ++ parts.getLastD "")

/-- The splitter-based chunk loop (lines 720-731 and 739-750): one chunk
per split text, inheriting the parent metadata and adding `parentId` and
the strategy tag; ids are drawn from the generator. -/
def splitChunks (gen : Nat → String) (doc : Document) (tag : String) :
    List String → Nat → List Document × Nat
  | [], n => ([], n)
  | t :: ts, n =>
      let rest := splitChunks gen doc tag ts (n + 1)
      (⟨gen n, t,
        { doc.metadata with parentId := some doc.id, chunkType := some tag }⟩ :: rest.1,
       rest.2)

/-- The CSV chunk loop (lines 697-712): groups of 10 raw lines with
start/end row markers. -/
def csvChunks (gen : Nat → String) (doc : Document) (totalLines : Nat) :
    List String → Nat → Nat → List Document × Nat
  | [], _, n => ([], n)
  | l :: rest0, i, n =>
      let r := csvChunks gen doc totalLines ((l :: rest0).drop 10) (i + 10) (n + 1)
      (⟨gen n, String.intercalate "\n" ((l :: rest0).take 10),
        { doc.metadata with
          parentId := some doc.id
          chunkType := some "csv_rows"
          startRow := some i
          endRow := some (min (i + 10 - 1) (totalLines - 1)) }⟩ :: r.1,
       r.2)
termination_by ls => ls.length
decreasing_by simp [List.length_drop]; omega

/-- `RagService.smartChunkDocument(doc)`: strategy dispatch on the
extension of `doc.metadata.source` (the empty source string is falsy in
JS, giving an empty extension and hence the default strategy). -/
def smartChunkDocument (split800 split1000 : String → List String)
    (gen : Nat → String) (n0 : Nat) (doc : Document) : List Document × Nat :=
  if (if doc.metadata.source = "" then "" else extnameLower doc.metadata.source)
      = ".csv" then
    let lines := splitChar '\n' doc.content.data
    csvChunks gen doc lines.length lines 0 n0
  else if (if doc.metadata.source = "" then "" else extnameLower doc.metadata.source)
      = ".json" then
    splitChunks gen doc "json_properties" (split800 doc.content) n0
  else
    splitChunks gen doc "text_paragraphs" (split1000 doc.content) n0

/-- The metadata array prepared by `storeEmbeddings`
(`metadatas = embeddings.map(e => e.metadata)`, line 821). -/
def storeMetadatas (embeddings : List EmbRecord) : List Metadata :=
  embeddings.map (fun e => e.metadata)

/-- Attribution fields required of a chunk/embedding-record metadata:
parent's source label and data-source id, parent document id, and a
chunk-strategy tag. -/
def attribMeta (m : Metadata) (doc : Document) : Prop :=
  m.source = doc.metadata.source ∧ m.dataSourceId = doc.metadata.dataSourceId ∧
  m.parentId = some doc.id ∧ m.chunkType.isSome = true

/-- Sample parent document for the chunker scenarios. -/
def docX : Document :=
  ⟨"doc0", "hello world", ⟨"notes.txt", "ds1", "file", none, none, none, none⟩⟩

/-!
## Directory loading (`RagService.loadDocuments`, lines 534-584) and data
source deletion (`deleteDataSource` / `getVectorStore`, lines 475-498)

`loadDirectory` enumeration and `loadFile` extraction are file-system and
parser effects, modelled by a `FileSystem` oracle whose `loadFile` either
returns the extracted text or throws (`Except.error`, covering both the
`Unsupported file type` throw and extraction failures such as a JSON
parse error).  In the source the only `try/catch` sits around the whole
per-data-source `switch` (lines 541-580), so an exception thrown while
loading one file of a directory source escapes the per-file loop: the
documents already pushed survive, the remaining files of that source are
skipped. -/

/-- File-system oracle: directory enumeration (the supported files found
by `loadDirectory`) and per-file text extraction. -/
structure FileSystem where
  loadFile : String → Except String String
  listDir : String → List String

/-- The per-file loop of the `directory` case (lines 560-571): one
Document per file until a `loadFile` throw aborts the remainder; the Bool
reports whether the per-source catch was reached. -/
def loadDirFiles (fsys : FileSystem) (gen : Nat → String) (dataSourceId : String) :
    List String → Nat → List Document × Nat × Bool
  | [], n => ([], n, false)
  | f :: rest, n =>
      match fsys.loadFile f with
      | .error _ => ([], n, true)
      | .ok content =>
          let d : Document :=
            ⟨gen n, content, ⟨f, dataSourceId, "file", none, none, none, none⟩⟩
          let r := loadDirFiles fsys gen dataSourceId rest (n + 1)
          (d :: r.1, r.2.1, r.2.2)

/-- `loadDocuments` restricted to one `directory` data source: the
documents produced for the files enumerated under its path. -/
def loadDocumentsDirectory (fsys : FileSystem) (gen : Nat → String)
    (dataSourceId dirPath : String) : List Document :=
  (loadDirFiles fsys gen dataSourceId (fsys.listDir dirPath) 0).1

/-- Directory with a malformed JSON file followed by a loadable text
file. -/
def fsBadFirst : FileSystem :=
  ⟨fun f => if f = "/data/a.json" then .error "SyntaxError: Unexpected token"
    else .ok "hello world",
   fun _ => ["/data/a.json", "/data/b.txt"]⟩

/-- In-memory data-source record (the fields relevant to deletion). -/
structure DataSourceRec where
  name : String
  status : String
deriving DecidableEq, Repr

/-- The two in-memory maps of `RagService` touched by deletion. -/
structure RagState where
  dataSources : List (String × DataSourceRec)
  vectorStores : List (String × VectorStoreRec)
deriving Repr

/-- `RagService.deleteDataSource(id)` (lines 496-498): only
`this.dataSources.delete(id)`; the vector-store map is untouched. -/
def deleteDataSource (st : RagState) (id : String) : Bool × RagState :=
  (st.dataSources.any (fun kv => kv.1 == id),
   ⟨st.dataSources.filter (fun kv => kv.1 != id), st.vectorStores⟩)

/-- `RagService.getVectorStore(id)` (lines 475-477). -/
def getVectorStore (st : RagState) (id : String) : Option VectorStoreRec :=
  List.lookup id st.vectorStores

theorem levRec_nil_left (ys : List Char) : levRec [] ys = ys.length := by
  rw [levRec]

theorem levRec_nil_right (x : Char) (xs : List Char) :
    levRec (x :: xs) [] = xs.length + 1 := by
  rw [levRec]; rfl

theorem levRec_cons (x : Char) (xs : List Char) (y : Char) (ys : List Char) :
    levRec (x :: xs) (y :: ys)
      = if x == y then levRec xs ys
        else min (min (levRec xs ys + 1) (levRec xs (y :: ys) + 1))
          (levRec (x :: xs) ys + 1) := by
  rw [levRec]

theorem buildRow_spec (c2 : Char) (q : List Char) :
    ∀ (t r : List Char),
      buildRow c2 t (levRec r q) (levRec r (c2 :: q)) (rowEntries q r t)
        = rowEntries (c2 :: q) r t := by
  intro t
  induction t with
  | nil => intro r; simp [buildRow, rowEntries]
  | cons c1 t ih =>
      intro r
      have hcur : (if c2 == c1 then levRec r q
          else min (min (levRec r q + 1) (levRec r (c2 :: q) + 1)) (levRec (c1 :: r) q + 1))
          = levRec (c1 :: r) (c2 :: q) := by
        rw [levRec_cons]
        by_cases h : c1 = c2
        · simp [h]
        · have h1 : (c1 == c2) = false := by simp [h]
          have h2 : (c2 == c1) = false := by simp [Ne.symm h]
          simp [h1, h2]
      simp only [rowEntries, buildRow, hcur]
      exact congrArg _ (ih (c1 :: r))

theorem levRows_eq (s1 : List Char) :
    ∀ (s2t q : List Char),
      levRows s1 s2t (rowFor s1 q) (q.length + 1) = rowFor s1 (List.reverseAux s2t q) := by
  intro s2t
  induction s2t with
  | nil => intro q; simp [levRows]
  | cons c2 s2t ih =>
      intro q
      show levRows s1 s2t
          ((q.length + 1) :: buildRow c2 s1 (levRec [] q) (q.length + 1) (rowEntries q [] s1))
          (q.length + 1 + 1) = _
      have hlen : levRec [] (c2 :: q) = q.length + 1 := by
        rw [levRec_nil_left]; rfl
      have hrow : (q.length + 1)
            :: buildRow c2 s1 (levRec [] q) (q.length + 1) (rowEntries q [] s1)
          = rowFor s1 (c2 :: q) := by
        rw [rowFor, ← hlen]
        exact congrArg _ (buildRow_spec c2 q s1 [])
      rw [hrow]
      have := ih (c2 :: q)
      simpa [hlen, List.reverseAux] using this

theorem rowEntries_nil_snd :
    ∀ (t r : List Char), rowEntries [] r t
      = (List.range t.length).map (fun k => r.length + 1 + k) := by
  intro t
  induction t with
  | nil => intro r; simp [rowEntries]
  | cons c t ih =>
      intro r
      rw [rowEntries, levRec_nil_right, ih (c :: r)]
      simp only [List.length_cons, List.range_succ_eq_map, List.map_cons, List.map_map]
      refine congrArg₂ _ (by omega) ?_
      apply List.map_congr_left
      intro k _
      simp only [Function.comp_apply, Nat.succ_eq_add_one, List.length_cons]
      omega

theorem rowFor_nil (s1 : List Char) : rowFor s1 [] = List.range (s1.length + 1) := by
  rw [rowFor, rowEntries_nil_snd, List.range_succ_eq_map, levRec_nil_left]
  refine congrArg₂ _ rfl ?_
  apply List.map_congr_left
  intro k _
  simp only [List.length_nil, Nat.succ_eq_add_one]
  omega

theorem rowEntries_getD (q : List Char) :
    ∀ (t : List Char) (r : List Char) (k : Nat), k < t.length →
      (rowEntries q r t).getD k 0 = levRec ((t.take (k + 1)).reverse ++ r) q := by
  intro t
  induction t with
  | nil => intro r k h; simp at h
  | cons c t ih =>
      intro r k h
      cases k with
      | zero => simp [rowEntries]
      | succ k =>
          have hk : k < t.length := by simpa using h
          have := ih (c :: r) k hk
          simp only [rowEntries, List.getD_cons_succ, this, List.take_succ_cons,
            List.reverse_cons, List.append_assoc]
          simp

theorem levenshteinDistance_eq_levRec (a b : String) :
    levenshteinDistance a b = levRec a.data.reverse b.data.reverse := by
  show (levRows a.data b.data (List.range (a.data.length + 1)) 1).getD a.data.length 0 = _
  rw [(rowFor_nil a.data).symm]
  have h1 : levRows a.data b.data (rowFor a.data []) 1 = rowFor a.data b.data.reverse := by
    have := levRows_eq a.data b.data []
    simpa [List.reverseAux_eq] using this
  rw [h1]
  cases ha : a.data with
  | nil => simp [rowFor, ha, levRec_nil_left]
  | cons c cs =>
      have hlen : (c :: cs).length = cs.length + 1 := rfl
      rw [rowFor, hlen, List.getD_cons_succ]
      have := rowEntries_getD b.data.reverse (c :: cs) [] cs.length (by simp)
      rw [this]
      simp

theorem levRec_comm (xs ys : List Char) : levRec xs ys = levRec ys xs := by
  induction xs, ys using levRec.induct with
  | case1 ys =>
      cases ys with
      | nil => rfl
      | cons y ys => rw [levRec_nil_left, levRec_nil_right]; rfl
  | case2 x xs =>
      rw [levRec_nil_left, levRec_nil_right]; rfl
  | case3 x xs y ys heq ih =>
      have hxy : x = y := by
        first
        | exact heq
        | exact beq_iff_eq.mp heq
      subst hxy
      rw [levRec_cons, levRec_cons, if_pos (by simp), if_pos (by simp), ih]
  | case4 x xs y ys heq ih1 ih2 ih3 =>
      have hxy : ¬ x = y := by
        first
        | exact heq
        | exact fun h => heq (beq_iff_eq.mpr h)
      rw [levRec_cons, levRec_cons, if_neg (by simp [hxy]),
        if_neg (by simp [Ne.symm hxy]), ih1, ih2, ih3]
      omega

theorem levRec_self (xs : List Char) : levRec xs xs = 0 := by
  induction xs with
  | nil => rw [levRec_nil_left]; rfl
  | cons x xs ih => rw [levRec_cons, if_pos (by simp), ih]

theorem normScore_eq (dist maxLen : Nat) (hm : 0 < maxLen) :
    normScore dist maxLen = 1 - (dist : ℚ) / (maxLen : ℚ) := by
  unfold normScore
  rw [Rat.mkRat_eq_div]
  have hm0 : (maxLen : ℚ) ≠ 0 := by positivity
  field_simp

theorem normScore_le_one (d m : Nat) (hm : 0 < m) : normScore d m ≤ 1 := by
  rw [normScore_eq d m hm]
  have h0 : (0 : ℚ) ≤ (d : ℚ) / (m : ℚ) := by positivity
  linarith

theorem foldl_rat_le_max_one {α : Type} (f : ℚ → α → ℚ)
    (h : ∀ b x, f b x ≤ max b 1) :
    ∀ (l : List α) (b : ℚ), List.foldl f b l ≤ max b 1 := by
  intro l
  induction l with
  | nil => intro b; simp
  | cons x l ih =>
      intro b
      calc List.foldl f (f b x) l ≤ max (f b x) 1 := ih _
        _ ≤ max (max b 1) 1 := max_le_max (h b x) le_rfl
        _ = max b 1 := by rw [max_assoc, max_self]

theorem nameTableFold_le_max_one (ql dl : String) (b : ℚ) :
    nameTableFold ql dl b ≤ max b 1 := by
  unfold nameTableFold
  apply foldl_rat_le_max_one
  intro b entry
  apply foldl_rat_le_max_one
  intro b variant
  by_cases hq : containsSub ql variant
  · simp only [hq, if_true]
    apply foldl_rat_le_max_one
    intro b cv
    by_cases hd : containsSub dl cv
    · simp only [hd, if_true]
      split_ifs with hc
      · exact le_trans (normScore_le_one _ _ hc.1) (le_max_right _ _)
      · exact le_max_left _ _
    · simp only [hd, if_false]
      exact le_max_left _ _
  · simp only [hq, if_false]
    exact le_max_left _ _

theorem docBestScore_le_one (ql dl : String) : docBestScore ql dl ≤ 1 := by
  unfold docBestScore
  have htab : nameTableFold ql dl 0 ≤ 1 := by
    have := nameTableFold_le_max_one ql dl 0
    simpa using this
  dsimp only
  split_ifs with hc
  · exact max_le htab (normScore_le_one _ _ hc.1)
  · exact htab

theorem mem_findPotentialNameMatches (query : String) (documents : List String)
    (m : FuzzyMatch) :
    m ∈ findPotentialNameMatches query documents ↔
      ∃ p ∈ documents.enum,
        m = ⟨p.2, docBestScore (toLowerStr query) (toLowerStr p.2), p.1⟩ ∧
        mkRat 1 2 < docBestScore (toLowerStr query) (toLowerStr p.2) := by
  unfold findPotentialNameMatches
  rw [List.mem_mergeSort, List.mem_filterMap]
  constructor
  · rintro ⟨p, hp, hf⟩
    by_cases hc : mkRat 1 2 < docBestScore (toLowerStr query) (toLowerStr p.2)
    · refine ⟨p, hp, ?_, hc⟩
      simp only [hc, if_pos] at hf
      exact (Option.some_inj.mp hf).symm
    · simp only [if_neg hc] at hf
      exact absurd hf (by simp)
  · rintro ⟨p, hp, hm, hc⟩
    exact ⟨p, hp, by simp only [if_pos hc, hm]⟩

theorem sorted_findPotentialNameMatches (query : String) (documents : List String) :
    (findPotentialNameMatches query documents).Pairwise
      (fun a b => b.score ≤ a.score) := by
  unfold findPotentialNameMatches
  have h := @List.sorted_mergeSort FuzzyMatch
    (fun (a b : FuzzyMatch) => decide (b.score ≤ a.score))
    (fun a b c hab hbc => by
      simp only [decide_eq_true_eq] at *
      exact le_trans hbc hab)
    (fun a b => by
      simp only [Bool.or_eq_true, decide_eq_true_eq]
      exact le_total b.score a.score)
    ((documents.enum).filterMap (fun p =>
      let best := docBestScore (toLowerStr query) (toLowerStr p.2)
      if mkRat 1 2 < best then some ⟨p.2, best, p.1⟩ else none))
  exact h.imp (fun hab => of_decide_eq_true hab)

theorem docBestScore_pos_of_half_lt (s : ℚ) (h : mkRat 1 2 < s) : 0 < s := by
  have h0 : (0 : ℚ) < mkRat 1 2 := by
    rw [Rat.mkRat_eq_div]
    norm_num
  exact lt_trans h0 h

/-- C8: for every query and candidate pool, `findPotentialNameMatches`
returns entries sorted descending by score, every returned score lies in
(0, 1] and strictly exceeds the 0.5 threshold, and an entry is returned
for a candidate exactly when its best score — the fold of the
name-confusion-table pass (accepted above 0.6) and the whole-query prefix
pass (accepted above 0.7), as computed by `docBestScore` — exceeds 0.5. -/
theorem findPotentialNameMatches_contract (query : String) (documents : List String) :
    (findPotentialNameMatches query documents).Pairwise (fun a b => b.score ≤ a.score) ∧
    (∀ m ∈ findPotentialNameMatches query documents,
      0 < m.score ∧ m.score ≤ 1 ∧ mkRat 1 2 < m.score) ∧
    (∀ m, m ∈ findPotentialNameMatches query documents ↔
      ∃ p ∈ documents.enum,
        m = ⟨p.2, docBestScore (toLowerStr query) (toLowerStr p.2), p.1⟩ ∧
        mkRat 1 2 < docBestScore (toLowerStr query) (toLowerStr p.2)) := by
  refine ⟨sorted_findPotentialNameMatches query documents, ?_,
    fun m => mem_findPotentialNameMatches query documents m⟩
  intro m hm
  obtain ⟨p, _, hmeq, hgt⟩ := (mem_findPotentialNameMatches query documents m).mp hm
  have hs : m.score = docBestScore (toLowerStr query) (toLowerStr p.2) := by
    rw [hmeq]
  rw [hs]
  exact ⟨docBestScore_pos_of_half_lt _ hgt, docBestScore_le_one _ _, hgt⟩

/-- Witness for C8 at the concrete query `"chen"` over the one-candidate
pool `["chen"]`, whose single match has score 1. -/
theorem findPotentialNameMatches_contract_witness :
    0 < (FuzzyMatch.mk "chen" 1 0).score ∧ (FuzzyMatch.mk "chen" 1 0).score ≤ 1 ∧
      mkRat 1 2 < (FuzzyMatch.mk "chen" 1 0).score :=
  (findPotentialNameMatches_contract "chen" ["chen"]).2.1 ⟨"chen", 1, 0⟩
    ((mem_findPotentialNameMatches "chen" ["chen"] ⟨"chen", 1, 0⟩).mpr
      ⟨(0, "chen"), by decide, by decide, by decide⟩)

/-- C9: the Levenshtein edit distance implementation is symmetric and
evaluates to zero on equal strings. -/
theorem levenshteinDistance_symm_diag :
    (∀ a b : String, levenshteinDistance a b = levenshteinDistance b a) ∧
    (∀ a : String, levenshteinDistance a a = 0) := by
  constructor
  · intro a b
    rw [levenshteinDistance_eq_levRec, levenshteinDistance_eq_levRec, levRec_comm]
  · intro a
    rw [levenshteinDistance_eq_levRec, levRec_self]

theorem findPotentialNameMatches_nil (query : String) :
    findPotentialNameMatches query [] = [] := by
  unfold findPotentialNameMatches
  simp [List.mergeSort_nil]

theorem fuzzyContexts_nil (vectorStoreId query : String) :
    fuzzyContexts vectorStoreId query [] = [] := by
  unfold fuzzyContexts
  simp [findPotentialNameMatches_nil]

theorem fuzzyContexts_length_le (vectorStoreId query : String)
    (pool : List StoredRecord) :
    (fuzzyContexts vectorStoreId query pool).length ≤ 3 := by
  unfold fuzzyContexts
  refine le_trans (List.length_filterMap_le _ _) ?_
  exact List.length_take_le 3 _

theorem fuzzyContexts_mem (vectorStoreId query : String)
    (pool : List StoredRecord) :
    ∀ c ∈ fuzzyContexts vectorStoreId query pool,
      ∃ r ∈ pool, r.doc = some c.content := by
  unfold fuzzyContexts
  intro c hc
  rw [List.mem_filterMap] at hc
  obtain ⟨m, hm3, hmc⟩ := hc
  have hmm : m ∈ findPotentialNameMatches query (pool.filterMap (fun r => r.doc)) :=
    List.mem_of_mem_take hm3
  obtain ⟨p, hp, hmeq, -⟩ :=
    (mem_findPotentialNameMatches query (pool.filterMap (fun r => r.doc)) m).mp hmm
  have hdoc : m.doc ∈ pool.filterMap (fun r => r.doc) := by
    rw [hmeq]
    exact List.snd_mem_of_mem_enum hp
  obtain ⟨r, hr, hrdoc⟩ := List.mem_filterMap.mp hdoc
  refine ⟨r, hr, ?_⟩
  cases hmd : (pool.map (fun r => r.metadata)).getD m.index none with
  | none => rw [hmd] at hmc; exact absurd hmc (by simp)
  | some md =>
      rw [hmd] at hmc
      have : c = ⟨m.doc, srcLabel md, dsIdLabel md vectorStoreId⟩ :=
        (Option.some_inj.mp hmc).symm
      rw [this]
      exact hrdoc

/-- C2: `retrieveContext` never propagates a failure: a missing store, a
store that is not `ready`, a missing collection (thrown
`CollectionNotFound`), or a failing query-time embedding call each yield
the empty context list. -/
theorem retrieveContext_never_throws (env : ChromaEnv)
    (stores : List (String × VectorStoreRec)) (query vectorStoreId : String) :
    (List.lookup vectorStoreId stores = none →
      retrieveContext env stores query vectorStoreId = []) ∧
    (∀ vs, List.lookup vectorStoreId stores = some vs → vs.status ≠ "ready" →
      retrieveContext env stores query vectorStoreId = []) ∧
    (env.getCollection ("rag_" ++ vectorStoreId) = none →
      retrieveContext env stores query vectorStoreId = []) ∧
    (env.embedQuery query = none →
      retrieveContext env stores query vectorStoreId = []) := by
  unfold retrieveContext
  refine ⟨?_, ?_, ?_, ?_⟩
  · intro h; rw [h]
  · intro vs h hs; rw [h]; simp [hs]
  · intro h
    cases hl : List.lookup vectorStoreId stores with
    | none => rfl
    | some vs =>
        by_cases hs : vs.status = "ready"
        · simp [hs, h]
        · simp [hs]
  · intro h
    cases hl : List.lookup vectorStoreId stores with
    | none => rfl
    | some vs =>
        by_cases hs : vs.status = "ready"
        · cases hc : env.getCollection ("rag_" ++ vectorStoreId) with
          | none => simp [hs, hc]
          | some coll => simp [hs, hc, h]
        · simp [hs]

/-- Witness for C2: empty oracle environment and store table. -/
theorem retrieveContext_never_throws_witness :
    retrieveContext ⟨fun _ => none, fun _ => none⟩ [] "who is sarah" "vs1" = [] :=
  (retrieveContext_never_throws ⟨fun _ => none, fun _ => none⟩ [] "who is sarah" "vs1").1
    rfl

/-- Reduction of `retrieveContext` when every oracle call succeeds. -/
theorem retrieveContext_success (env : ChromaEnv)
    (stores : List (String × VectorStoreRec)) (query vectorStoreId : String)
    (vs : VectorStoreRec) (coll : Collection) (e : List ℚ)
    (hvs : List.lookup vectorStoreId stores = some vs)
    (hready : vs.status = "ready")
    (hcoll : env.getCollection ("rag_" ++ vectorStoreId) = some coll)
    (hemb : env.embedQuery query = some e) :
    retrieveContext env stores query vectorStoreId =
      (if (semanticContexts vectorStoreId (coll.ranked.take 5)).isEmpty then
        fuzzyContexts vectorStoreId query (coll.stored.take 100)
      else semanticContexts vectorStoreId (coll.ranked.take 5)) := by
  unfold retrieveContext
  rw [hvs]
  simp [hready, hcoll, hemb]

/-- C3: on a successful retrieval, the fuzzy fallback is used exactly when
no semantic result survives the distance filter; the fallback output is
capped at 3 context chunks and draws only on the first 100 scanned
records of the collection. -/
theorem retrieveContext_fuzzy_fallback (env : ChromaEnv)
    (stores : List (String × VectorStoreRec)) (query vectorStoreId : String)
    (vs : VectorStoreRec) (coll : Collection) (e : List ℚ)
    (hvs : List.lookup vectorStoreId stores = some vs)
    (hready : vs.status = "ready")
    (hcoll : env.getCollection ("rag_" ++ vectorStoreId) = some coll)
    (hemb : env.embedQuery query = some e) :
    (semanticContexts vectorStoreId (coll.ranked.take 5) ≠ [] →
      retrieveContext env stores query vectorStoreId =
        semanticContexts vectorStoreId (coll.ranked.take 5)) ∧
    (semanticContexts vectorStoreId (coll.ranked.take 5) = [] →
      retrieveContext env stores query vectorStoreId =
        fuzzyContexts vectorStoreId query (coll.stored.take 100) ∧
      (retrieveContext env stores query vectorStoreId).length ≤ 3 ∧
      ∀ c ∈ retrieveContext env stores query vectorStoreId,
        ∃ r ∈ coll.stored.take 100, r.doc = some c.content) := by
  have hrc := retrieveContext_success env stores query vectorStoreId vs coll e
    hvs hready hcoll hemb
  constructor
  · intro hne
    rw [hrc, if_neg (by simpa [List.isEmpty_iff] using hne)]
  · intro he
    have hrc2 : retrieveContext env stores query vectorStoreId =
        fuzzyContexts vectorStoreId query (coll.stored.take 100) := by
      rw [hrc, if_pos (by simp [he])]
    refine ⟨hrc2, ?_, ?_⟩
    · rw [hrc2]
      exact fuzzyContexts_length_le _ _ _
    · rw [hrc2]
      exact fuzzyContexts_mem _ _ _

/-- Witness for C3: ready store over an existing but empty collection; the
fallback path runs and returns at most 3 (here 0) chunks. -/
theorem retrieveContext_fuzzy_fallback_witness :
    retrieveContext ⟨fun _ => some ⟨0, [], []⟩, fun _ => some []⟩
        [("vs1", ⟨"store", "ready"⟩)] "who is sarah chin" "vs1" =
      fuzzyContexts "vs1" "who is sarah chin"
        ((Collection.mk 0 [] []).stored.take 100) ∧
    (retrieveContext ⟨fun _ => some ⟨0, [], []⟩, fun _ => some []⟩
        [("vs1", ⟨"store", "ready"⟩)] "who is sarah chin" "vs1").length ≤ 3 := by
  have h := (retrieveContext_fuzzy_fallback ⟨fun _ => some ⟨0, [], []⟩, fun _ => some []⟩
    [("vs1", ⟨"store", "ready"⟩)] "who is sarah chin" "vs1" ⟨"store", "ready"⟩
    ⟨0, [], []⟩ [] rfl rfl rfl rfl).2 rfl
  exact ⟨h.1, h.2.1⟩

/-- C4 (amended): the semantic step queries for at most 5 nearest
neighbors and keeps exactly those returned results carrying a string
document and a metadata object whose distance is null or strictly below
the 0.8 ceiling: every surviving context chunk comes from such a result,
and every such result contributes its context chunk — while a result
with distance equal to 0.8 is discarded, not kept. -/
theorem retrieveContext_semantic_filter (env : ChromaEnv)
    (stores : List (String × VectorStoreRec)) (query vectorStoreId : String)
    (vs : VectorStoreRec) (coll : Collection) (e : List ℚ)
    (hvs : List.lookup vectorStoreId stores = some vs)
    (hready : vs.status = "ready")
    (hcoll : env.getCollection ("rag_" ++ vectorStoreId) = some coll)
    (hemb : env.embedQuery query = some e) :
    (semanticContexts vectorStoreId (coll.ranked.take 5)).length ≤ 5 ∧
    (semanticContexts vectorStoreId (coll.ranked.take 5) ≠ [] →
      retrieveContext env stores query vectorStoreId =
        semanticContexts vectorStoreId (coll.ranked.take 5)) ∧
    (∀ c ∈ semanticContexts vectorStoreId (coll.ranked.take 5),
      ∃ r ∈ coll.ranked.take 5, r.doc = some c.content ∧
        (r.distance = none ∨ ∃ d, r.distance = some d ∧ d < mkRat 4 5)) ∧
    (∀ r ∈ coll.ranked.take 5, ∀ d m, r.doc = some d → r.metadata = some m →
      (r.distance = none ∨ ∃ q, r.distance = some q ∧ q < mkRat 4 5) →
      ContextChunk.mk d (srcLabel m) (dsIdLabel m vectorStoreId) ∈
        semanticContexts vectorStoreId (coll.ranked.take 5)) := by
  have hrc := retrieveContext_success env stores query vectorStoreId vs coll e
    hvs hready hcoll hemb
  refine ⟨?_, ?_, ?_, ?_⟩
  · unfold semanticContexts
    refine le_trans (List.length_filterMap_le _ _) ?_
    exact List.length_take_le 5 _
  · intro hne
    rw [hrc, if_neg (by simpa [List.isEmpty_iff] using hne)]
  · intro c hc
    unfold semanticContexts at hc
    rw [List.mem_filterMap] at hc
    obtain ⟨r, hr, hrc2⟩ := hc
    refine ⟨r, hr, ?_⟩
    cases hd : r.doc with
    | none => rw [hd] at hrc2; exact absurd hrc2 (by simp)
    | some d =>
        cases hm : r.metadata with
        | none => rw [hd, hm] at hrc2; exact absurd hrc2 (by simp)
        | some m =>
            rw [hd, hm] at hrc2
            simp only [] at hrc2
            by_cases hk : keepDistance r.distance
            · rw [if_pos hk] at hrc2
              have hcc : c = ⟨d, srcLabel m, dsIdLabel m vectorStoreId⟩ :=
                (Option.some_inj.mp hrc2).symm
              refine ⟨by rw [hcc], ?_⟩
              cases hdist : r.distance with
              | none => exact Or.inl rfl
              | some dq =>
                  refine Or.inr ⟨dq, rfl, ?_⟩
                  rw [hdist] at hk
                  exact of_decide_eq_true hk
            · rw [if_neg hk] at hrc2
              exact absurd hrc2 (by simp)
  · intro r hr d m hd hm hdist
    have hk : keepDistance r.distance = true := by
      rcases hdist with hnone | ⟨q, hq, hlt⟩
      · rw [hnone]; rfl
      · rw [hq]
        exact decide_eq_true hlt
    unfold semanticContexts
    exact List.mem_filterMap.mpr ⟨r, hr, by rw [hd, hm]; simp [hk]⟩

/-- Witness for C4 at a collection with one result at distance 0.1: the
result is below the strict ceiling, so its context chunk is kept, and
the semantic output respects the length bound. -/
theorem retrieveContext_semantic_filter_witness :
    ContextChunk.mk "hello" "docs/a.txt" "ds1" ∈
      semanticContexts "vs1"
        ((Collection.mk 1
          [⟨some "hello", some ⟨"docs/a.txt", "ds1", "file", none, none, none, none⟩,
            some (mkRat 1 10)⟩] []).ranked.take 5) ∧
    (semanticContexts "vs1"
      ((Collection.mk 1
        [⟨some "hello", some ⟨"docs/a.txt", "ds1", "file", none, none, none, none⟩,
          some (mkRat 1 10)⟩] []).ranked.take 5)).length ≤ 5 := by
  have h := retrieveContext_semantic_filter
    ⟨fun _ => some ⟨1, [⟨some "hello",
        some ⟨"docs/a.txt", "ds1", "file", none, none, none, none⟩,
        some (mkRat 1 10)⟩], []⟩, fun _ => some []⟩
    [("vs1", ⟨"store", "ready"⟩)] "hello" "vs1" ⟨"store", "ready"⟩
    ⟨1, [⟨some "hello", some ⟨"docs/a.txt", "ds1", "file", none, none, none, none⟩,
      some (mkRat 1 10)⟩], []⟩ [] rfl rfl rfl rfl
  refine ⟨?_, h.1⟩
  exact h.2.2.2
    ⟨some "hello", some ⟨"docs/a.txt", "ds1", "file", none, none, none, none⟩,
      some (mkRat 1 10)⟩ (by decide) "hello"
    ⟨"docs/a.txt", "ds1", "file", none, none, none, none⟩ rfl rfl
    (Or.inr ⟨mkRat 1 10, rfl, by decide⟩)

/-- Counterexample for C4 as stated: a semantic result whose distance is
exactly the 0.8 ceiling is discarded by the strict `< 0.8` filter (the
claim asserts results at the ceiling are kept), so a collection whose only
result sits at distance 0.8 yields no context at all. -/
theorem retrieveContext_semantic_ceiling_counterexample :
    retrieveContext
        ⟨fun _ => some ⟨1, [⟨some "doc",
            some ⟨"docs/a.txt", "ds1", "file", none, none, none, none⟩,
            some (mkRat 4 5)⟩], []⟩, fun _ => some []⟩
        [("vs1", ⟨"store", "ready"⟩)] "q" "vs1" = [] ∧
    mkRat 4 5 ≤ mkRat 4 5 := by
  constructor
  · have h := retrieveContext_success
      ⟨fun _ => some ⟨1, [⟨some "doc",
          some ⟨"docs/a.txt", "ds1", "file", none, none, none, none⟩,
          some (mkRat 4 5)⟩], []⟩, fun _ => some []⟩
      [("vs1", ⟨"store", "ready"⟩)] "q" "vs1" ⟨"store", "ready"⟩
      ⟨1, [⟨some "doc", some ⟨"docs/a.txt", "ds1", "file", none, none, none, none⟩,
        some (mkRat 4 5)⟩], []⟩ [] rfl rfl rfl rfl
    rw [h]
    have hsem : semanticContexts "vs1"
        ((Collection.mk 1 [⟨some "doc",
          some ⟨"docs/a.txt", "ds1", "file", none, none, none, none⟩,
          some (mkRat 4 5)⟩] []).ranked.take 5) = [] := by decide
    rw [hsem]
    simp [fuzzyContexts_nil]
  · exact le_refl _

theorem numBatches_succ (len : Nat) (h : 0 < len) :
    numBatches len = numBatches (len - 50) + 1 := by
  unfold numBatches
  omega

theorem retryGo_spec (pb : Nat → Bool) :
    retryGo pb 3 0 = ((firstSuccess pb).isSome, sleepsFor (firstSuccess pb)) := by
  have h3 : firstSuccess pb = [0, 1, 2].find? pb := rfl
  rw [h3]
  cases h0 : pb 0 <;> cases h1 : pb 1 <;> cases h2 : pb 2 <;>
    simp [retryGo, sleepsFor, h0, h1, h2, List.range_succ]

theorem flatMap_map_succ {β : Type} (f : Nat → List β) :
    ∀ (l : List Nat), (l.map Nat.succ).flatMap f = l.flatMap (fun i => f (i + 1)) := by
  intro l
  induction l with
  | nil => rfl
  | cons x l ih => simp [List.flatMap_cons, ih, Nat.succ_eq_add_one]

theorem flatMap_range_succ_shift {β : Type} (f : Nat → List β) (m : Nat) :
    (List.range (m + 1)).flatMap f = f 0 ++ (List.range m).flatMap (fun i => f (i + 1)) := by
  rw [List.range_succ_eq_map, List.flatMap_cons, flatMap_map_succ]

theorem batchOf_zero (chunks : List Document) : batchOf chunks 0 = chunks.take 50 := by
  unfold batchOf
  simp

theorem batchOf_succ (chunks : List Document) (i : Nat) :
    batchOf chunks (i + 1) = batchOf (chunks.drop 50) i := by
  unfold batchOf
  rw [List.drop_drop]
  have h : 50 * (i + 1) = 50 + 50 * i := by ring
  rw [h]

theorem genGo_spec (p : Nat → Nat → Bool) (v : String → List ℚ) :
    ∀ (n : Nat) (chunks : List Document) (b : Nat), chunks.length = n →
      genGo p v chunks b =
        ((List.range (numBatches chunks.length)).flatMap (fun i =>
          if (firstSuccess (p (b + i))).isSome then
            (batchOf chunks i).map (mkEmbRecord v)
          else []),
         (List.range (numBatches chunks.length)).flatMap (fun i =>
          sleepsFor (firstSuccess (p (b + i))))) := by
  intro n
  induction n using Nat.strong_induction_on with
  | _ n ih =>
      intro chunks b hlen
      cases chunks with
      | nil =>
          simp [genGo, numBatches]
      | cons x xs =>
          have hpos : 0 < (x :: xs).length := by simp
          have hlt : ((x :: xs).drop 50).length < n := by
            rw [List.length_drop, ← hlen]
            simp only [List.length_cons]
            omega
          have hrec := ih ((x :: xs).drop 50).length hlt ((x :: xs).drop 50) (b + 1) rfl
          have hrec1 : (genGo p v ((x :: xs).drop 50) (b + 1)).1
              = (List.range (numBatches ((x :: xs).drop 50).length)).flatMap (fun i =>
                  if (firstSuccess (p (b + 1 + i))).isSome then
                    (batchOf ((x :: xs).drop 50) i).map (mkEmbRecord v)
                  else []) := by
            rw [hrec]
          have hrec2 : (genGo p v ((x :: xs).drop 50) (b + 1)).2
              = (List.range (numBatches ((x :: xs).drop 50).length)).flatMap (fun i =>
                  sleepsFor (firstSuccess (p (b + 1 + i)))) := by
            rw [hrec]
          have hrs1 : (retryGo (p b) 3 0).1 = (firstSuccess (p b)).isSome := by
            rw [retryGo_spec]
          have hrs2 : (retryGo (p b) 3 0).2 = sleepsFor (firstSuccess (p b)) := by
            rw [retryGo_spec]
          rw [genGo, hrs1, hrs2, hrec1, hrec2, numBatches_succ (x :: xs).length hpos,
            flatMap_range_succ_shift, flatMap_range_succ_shift, List.length_drop]
          refine congrArg₂ Prod.mk (congrArg₂ _ ?_ ?_) (congrArg₂ _ ?_ ?_)
          · rw [Nat.add_zero, batchOf_zero]
          · refine congrArg _ ?_
            funext i
            rw [batchOf_succ]
            have hbi : b + 1 + i = b + (i + 1) := by omega
            rw [hbi]
          · rw [Nat.add_zero]
          · refine congrArg _ ?_
            funext i
            have hbi : b + 1 + i = b + (i + 1) := by omega
            rw [hbi]

/-- Closed form of `generateEmbeddings`: per batch `i`, the records of
`batchOf chunks i` appear exactly when some attempt `k < 3` succeeds, and
the backoff sleeps follow `sleepsFor` of the first successful attempt. -/
theorem generateEmbeddings_closed (p : Nat → Nat → Bool) (v : String → List ℚ)
    (chunks : List Document) :
    generateEmbeddings p v chunks =
      ((List.range (numBatches chunks.length)).flatMap (fun i =>
        if (firstSuccess (p i)).isSome then
          (batchOf chunks i).map (mkEmbRecord v)
        else []),
       (List.range (numBatches chunks.length)).flatMap (fun i =>
        sleepsFor (firstSuccess (p i)))) := by
  unfold generateEmbeddings
  by_cases h : chunks.length = 0
  · rw [if_pos h, h]
    simp [numBatches]
  · rw [if_neg h]
    have hspec := genGo_spec p v chunks.length chunks 0 rfl
    simpa using hspec

/-- C5 (amended): `generateEmbeddings` partitions the chunks into fixed
batches of 50 (`batchOf`); each batch is attempted at most 3 times in
total, the k-th failed attempt sleeping `2^k * 1000` ms while attempts
remain — i.e. backoffs of 2s then 4s, not 1s/2s/4s — and a batch whose 3
attempts all fail contributes no records while the remaining batches are
still processed. -/
theorem generateEmbeddings_batching_retry (p : Nat → Nat → Bool)
    (v : String → List ℚ) (chunks : List Document) :
    generateEmbeddings p v chunks =
      ((List.range (numBatches chunks.length)).flatMap (fun i =>
        if (firstSuccess (p i)).isSome then
          (batchOf chunks i).map (mkEmbRecord v)
        else []),
       (List.range (numBatches chunks.length)).flatMap (fun i =>
        sleepsFor (firstSuccess (p i)))) :=
  generateEmbeddings_closed p v chunks

/-- Counterexample for C5 as stated: with a permanently failing provider
and a single batch, the observed backoff sleeps are 2000 ms then 4000 ms —
two sleeps of `2^retryCount` seconds after the increment — not the three
sleeps 1s, 2s, 4s the claim describes. -/
theorem generateEmbeddings_backoff_counterexample :
    (generateEmbeddings (fun _ _ => false) (fun _ => []) [chunkX]).2 = [2000, 4000] ∧
    ([2000, 4000] : List Nat) ≠ [1000, 2000, 4000] := by
  constructor
  · rw [generateEmbeddings_closed]
    decide
  · decide

theorem generateEmbeddings_length (p : Nat → Nat → Bool) (v : String → List ℚ)
    (chunks : List Document) :
    ((generateEmbeddings p v chunks).1).length =
      ((List.range (numBatches chunks.length)).map (fun i =>
        if (firstSuccess (p i)).isSome then (batchOf chunks i).length else 0)).sum := by
  have h1 : (generateEmbeddings p v chunks).1
      = (List.range (numBatches chunks.length)).flatMap (fun i =>
          if (firstSuccess (p i)).isSome then
            (batchOf chunks i).map (mkEmbRecord v)
          else []) := by
    rw [generateEmbeddings_closed]
  rw [h1, List.length_flatMap]
  refine congrArg List.sum (List.map_congr_left ?_)
  intro i _
  by_cases hs : (firstSuccess (p i)).isSome
  · simp [hs]
  · simp [hs]

theorem generateEmbeddings_metadata (p : Nat → Nat → Bool) (v : String → List ℚ)
    (chunks : List Document) :
    ∀ r ∈ (generateEmbeddings p v chunks).1, ∃ c ∈ chunks, r.metadata = c.metadata := by
  intro r hr
  have h1 : (generateEmbeddings p v chunks).1
      = (List.range (numBatches chunks.length)).flatMap (fun i =>
          if (firstSuccess (p i)).isSome then
            (batchOf chunks i).map (mkEmbRecord v)
          else []) := by
    rw [generateEmbeddings_closed]
  rw [h1, List.mem_flatMap] at hr
  obtain ⟨i, -, hri⟩ := hr
  by_cases hs : (firstSuccess (p i)).isSome
  · rw [if_pos hs] at hri
    obtain ⟨c, hc, hcr⟩ := List.mem_map.mp hri
    refine ⟨c, List.mem_of_mem_drop (List.mem_of_mem_take hc), ?_⟩
    rw [← hcr]
    rfl
  · rw [if_neg hs] at hri
    exact absurd hri (by simp)

/-- C1 (amended): when storing succeeds, processing always ends `ready`
even if embedding batches permanently failed, and the recorded
`documentCount` is the total number of chunks produced by the chunker —
not the number of successfully generated embeddings, which is what the
store actually receives. -/
theorem autoProcess_ready_total_chunk_count (p : Nat → Nat → Bool)
    (v : String → List ℚ) (chunks : List Document) :
    (autoProcessAfterChunks p v chunks true).status = "ready" ∧
    (autoProcessAfterChunks p v chunks true).documentCount = some chunks.length ∧
    (autoProcessAfterChunks p v chunks true).storedVectors =
      ((generateEmbeddings p v chunks).1).length := by
  unfold autoProcessAfterChunks
  exact ⟨rfl, rfl, rfl⟩

/-- Counterexample for C1 as stated: 250 chunks form 5 batches of 50; the
provider permanently fails on 2 of them, so only 150 embeddings are
generated and stored, yet the Data Source ends `ready` with
`documentCount = 250` — the chunker total — not 150 as the claim
asserts. -/
theorem autoProcess_documentCount_counterexample :
    (autoProcessAfterChunks pFail13 (fun _ => [])
      (List.replicate 250 chunkX) true).status = "ready" ∧
    (autoProcessAfterChunks pFail13 (fun _ => [])
      (List.replicate 250 chunkX) true).documentCount = some 250 ∧
    (autoProcessAfterChunks pFail13 (fun _ => [])
      (List.replicate 250 chunkX) true).storedVectors = 150 ∧
    (250 : Nat) ≠ 150 := by
  refine ⟨rfl, ?_, ?_, by decide⟩
  · show some (List.replicate 250 chunkX).length = some 250
    rw [List.length_replicate]
  · show ((generateEmbeddings pFail13 (fun _ => [])
      (List.replicate 250 chunkX)).1).length = 150
    rw [generateEmbeddings_length, List.length_replicate]
    decide

theorem splitChunks_mem (gen : Nat → String) (doc : Document) (tag : String) :
    ∀ (texts : List String) (n : Nat), ∀ c ∈ (splitChunks gen doc tag texts n).1,
      c.metadata = { doc.metadata with parentId := some doc.id, chunkType := some tag } := by
  intro texts
  induction texts with
  | nil => intro n c hc; simp [splitChunks] at hc
  | cons t ts ih =>
      intro n c hc
      simp only [splitChunks, List.mem_cons] at hc
      rcases hc with hceq | hcmem
      · rw [hceq]
      · exact ih (n + 1) c hcmem

theorem csvChunks_mem (gen : Nat → String) (doc : Document) (totalLines : Nat) :
    ∀ (m : Nat) (ls : List String) (i n : Nat), ls.length = m →
      ∀ c ∈ (csvChunks gen doc totalLines ls i n).1,
        c.metadata.source = doc.metadata.source ∧
        c.metadata.dataSourceId = doc.metadata.dataSourceId ∧
        c.metadata.parentId = some doc.id ∧
        c.metadata.chunkType = some "csv_rows" := by
  intro m
  induction m using Nat.strong_induction_on with
  | _ m ih =>
      intro ls i n hm c hc
      cases ls with
      | nil => rw [csvChunks] at hc; simp at hc
      | cons l rest =>
          rw [csvChunks] at hc
          simp only [List.mem_cons] at hc
          rcases hc with hceq | hcmem
          · rw [hceq]
            exact ⟨rfl, rfl, rfl, rfl⟩
          · refine ih ((l :: rest).drop 10).length ?_
              ((l :: rest).drop 10) (i + 10) (n + 1) rfl c hcmem
            rw [List.length_drop, ← hm]
            simp only [List.length_cons]
            omega

theorem smartChunkDocument_metadata (split800 split1000 : String → List String)
    (gen : Nat → String) (n0 : Nat) (doc : Document) :
    ∀ c ∈ (smartChunkDocument split800 split1000 gen n0 doc).1,
      attribMeta c.metadata doc := by
  intro c hc
  unfold smartChunkDocument at hc
  by_cases hcsv : (if doc.metadata.source = "" then ""
      else extnameLower doc.metadata.source) = ".csv"
  · rw [if_pos hcsv] at hc
    have h := csvChunks_mem gen doc (splitChar (Char.ofNat 10) doc.content.data).length
      (splitChar (Char.ofNat 10) doc.content.data).length
      (splitChar (Char.ofNat 10) doc.content.data) 0 n0 rfl c hc
    exact ⟨h.1, h.2.1, h.2.2.1, by rw [h.2.2.2]; rfl⟩
  · rw [if_neg hcsv] at hc
    by_cases hjson : (if doc.metadata.source = "" then ""
        else extnameLower doc.metadata.source) = ".json"
    · rw [if_pos hjson] at hc
      have h := splitChunks_mem gen doc "json_properties" (split800 doc.content) n0 c hc
      rw [h]
      exact ⟨rfl, rfl, rfl, rfl⟩
    · rw [if_neg hjson] at hc
      have h := splitChunks_mem gen doc "text_paragraphs" (split1000 doc.content) n0 c hc
      rw [h]
      exact ⟨rfl, rfl, rfl, rfl⟩

/-- C10: every chunk emitted by `smartChunkDocument` carries metadata
inheriting the parent document's source label and owning data-source id
and adding the parent document id and a chunk-strategy tag (its own id is
freshly drawn from the generator), and the metadata array persisted by
`storeEmbeddings` for the embedding records generated from those chunks
carries the same attribution fields. -/
theorem chunk_metadata_attribution (split800 split1000 : String → List String)
    (gen : Nat → String) (n0 : Nat) (doc : Document) (p : Nat → Nat → Bool)
    (v : String → List ℚ) :
    (∀ c ∈ (smartChunkDocument split800 split1000 gen n0 doc).1,
      attribMeta c.metadata doc) ∧
    (∀ m ∈ storeMetadatas
        ((generateEmbeddings p v (smartChunkDocument split800 split1000 gen n0 doc).1).1),
      attribMeta m doc) := by
  have hchunks := smartChunkDocument_metadata split800 split1000 gen n0 doc
  refine ⟨hchunks, ?_⟩
  intro m hm
  unfold storeMetadatas at hm
  obtain ⟨r, hr, hrm⟩ := List.mem_map.mp hm
  obtain ⟨c, hc, hrc⟩ := generateEmbeddings_metadata p v _ r hr
  rw [← hrm, hrc]
  exact hchunks c hc

/-- Witness for C10: chunking the sample text document with identity
splitters yields one chunk whose metadata carries all attribution
fields. -/
theorem chunk_metadata_attribution_witness :
    attribMeta ⟨"notes.txt", "ds1", "file", some "doc0", some "text_paragraphs",
      none, none⟩ docX :=
  (chunk_metadata_attribution (fun s => [s]) (fun s => [s]) (fun n => toString n) 0
    docX (fun _ _ => true) (fun _ => [])).1
    ⟨"0", "hello world", ⟨"notes.txt", "ds1", "file", some "doc0",
      some "text_paragraphs", none, none⟩⟩ (by decide)

/-- C6 (code bug): the directory ingest of `/data` contains a malformed
`a.json` and a perfectly loadable `b.txt`, yet the ingest produces no
Document at all — the per-source catch aborts the remaining files of the
directory, where the spec requires logging the one failure and loading
the rest. -/
theorem directory_abort_on_bad_file :
    loadDocumentsDirectory fsBadFirst (fun n => toString n) "ds1" "/data" = [] ∧
    fsBadFirst.loadFile "/data/b.txt" = .ok "hello world" := by
  constructor
  · rfl
  · rfl

/-- C7 (code bug): after successfully deleting data source `src1`, the
vector store `datastore_src1` whose lifetime the spec ties to it is still
registered with status `ready` — nothing removes or orphan-marks it. -/
theorem deleteDataSource_leaves_vector_store :
    (deleteDataSource
      ⟨[("src1", ⟨"My Source", "ready"⟩)],
       [("datastore_src1", ⟨"My Source", "ready"⟩)]⟩ "src1").1 = true ∧
    (deleteDataSource
      ⟨[("src1", ⟨"My Source", "ready"⟩)],
       [("datastore_src1", ⟨"My Source", "ready"⟩)]⟩ "src1").2.dataSources = [] ∧
    getVectorStore
      (deleteDataSource
        ⟨[("src1", ⟨"My Source", "ready"⟩)],
         [("datastore_src1", ⟨"My Source", "ready"⟩)]⟩ "src1").2 "datastore_src1" =
      some ⟨"My Source", "ready"⟩ := by
  refine ⟨rfl, rfl, rfl⟩

end Rag
